import Mathlib

/-!
Verification of the pg_filedump page/tuple decoder specification against the
source (pg_filedump.c, decode.c).  Each section embeds the relevant C
functions as executable Lean definitions (machine integers become Nat/Int
with explicit wrap where overflow matters, byte buffers become functions
Nat → Nat or List Nat, fallible code returns Option/Except) and the theorems
at the end of the file settle the claims about them.
-/

/- ## Byte-level utilities -/

/-- Read one byte out of a memory image (bytes are stored mod 256). -/
def readByte (mem : Nat → Nat) (a : Nat) : Nat := mem a % 256

/-- Little-endian 16-bit read, as the C code does with a uint16 pointer cast. -/
def readLE16 (mem : Nat → Nat) (a : Nat) : Nat :=
  readByte mem a + 256 * readByte mem (a + 1)

/-- Little-endian 32-bit read, as the C code does with a uint32/int pointer cast. -/
def readLE32 (mem : Nat → Nat) (a : Nat) : Nat :=
  readByte mem a + 256 * readByte mem (a + 1) +
    65536 * readByte mem (a + 2) + 16777216 * readByte mem (a + 3)

/-- Reinterpret a value below 2^32 as a signed 32-bit integer. -/
def toInt32 (v : Nat) : Int :=
  if v % 4294967296 < 2147483648 then (v % 4294967296 : Nat)
  else (v % 4294967296 : Nat) - 4294967296

/-- Unsigned 32-bit subtraction (C unsigned int wraparound). -/
def usub32 (a b : Nat) : Nat :=
  if b ≤ a then a - b else a + 4294967296 - b

/-- MAXALIGN on the 64-bit platforms pg_filedump targets (8-byte alignment). -/
def MAXALIGN (n : Nat) : Nat := (n + 7) / 8 * 8

/-- SHORTALIGN: round up to 2-byte alignment. -/
def SHORTALIGN (n : Nat) : Nat := (n + 1) / 2 * 2

/-- INTALIGN applied to an address: round up to 4-byte alignment. -/
def INTALIGN (addr : Nat) : Nat := (addr + 3) / 4 * 4

/- ## Constants from the PostgreSQL headers used by pg_filedump -/

/-- sizeof(PageHeaderData): 24 bytes (the flexible pd_linp array contributes 0). -/
def sizeofPageHeaderData : Nat := 24

/-- sizeof(ItemIdData): 4 bytes. -/
def sizeofItemIdData : Nat := 4

/-- sizeof(SpGistPageOpaqueData): flags 2 + nRedirection 2 + nPlaceholder 2 + page id 2. -/
def sizeofSpGistPageOpaqueData : Nat := 8

/-- sizeof(GinPageOpaqueData): rightlink 4 + maxoff 2 + flags 2. -/
def sizeofGinPageOpaqueData : Nat := 8

/-- sizeof(BTPageOpaqueData): prev 4 + next 4 + level 4 + flags 2 + cycleid 2. -/
def sizeofBTPageOpaqueData : Nat := 16

/-- sizeof(HashPageOpaqueData): prevblkno 4 + nextblkno 4 + bucket 4 + flag 2 + page id 2. -/
def sizeofHashPageOpaqueData : Nat := 16

/-- sizeof(GISTPageOpaqueData): nsn 8 + rightlink 4 + flags 2 + page id 2. -/
def sizeofGISTPageOpaqueData : Nat := 16

/-- SEQUENCE_MAGIC from pg_filedump.h. -/
def SEQUENCE_MAGIC : Nat := 0x1717

/-- SPGIST_PAGE_ID from spgist_private.h. -/
def SPGIST_PAGE_ID : Nat := 0xFF03

/-- MAX_BT_CYCLE_ID from nbtree.h. -/
def MAX_BT_CYCLE_ID : Nat := 0xFF7F

/-- HASHO_PAGE_ID from hash.h. -/
def HASHO_PAGE_ID : Nat := 0xFF80

/-- GIST_PAGE_ID from gist.h. -/
def GIST_PAGE_ID : Nat := 0xFF81

/-- PG_PAGE_LAYOUT_VERSION, the only layout version pg_filedump supports. -/
def PG_PAGE_LAYOUT_VERSION : Nat := 4

/- ## FormatHeader validity check (pg_filedump.c, FormatHeader) -/

/-- PageGetMaxOffsetNumber from bufpage.h: number of line pointers implied by
pd_lower (0 when pd_lower does not even cover the fixed header). -/
def PageGetMaxOffsetNumber (lower : Nat) : Nat :=
  if lower ≤ sizeofPageHeaderData then 0
  else (lower - sizeofPageHeaderData) / sizeofItemIdData

/-- The invalid-header condition of FormatHeader (pg_filedump.c).  The source
disjunction is, in order: maxOffset < 0 (impossible, PageGetMaxOffsetNumber
returns an unsigned OffsetNumber), maxOffset > blockSize, blockVersion not the
supported layout version, pd_upper > blockSize, pd_upper > pd_special,
pd_lower < sizeof(PageHeaderData) - sizeof(ItemIdData), pd_lower > blockSize,
pd_upper < pd_lower, pd_special > blockSize.  When it holds the code prints
" Error: Invalid header information." and sets exitCode = 1. -/
def formatHeaderInvalid (blockSize lower upper special version : Nat) : Bool :=
  decide (blockSize < PageGetMaxOffsetNumber lower) ||
  decide (version ≠ PG_PAGE_LAYOUT_VERSION) ||
  decide (blockSize < upper) ||
  decide (special < upper) ||
  decide (lower < sizeofPageHeaderData - sizeofItemIdData) ||
  decide (blockSize < lower) ||
  decide (upper < lower) ||
  decide (blockSize < special)

/- ## Exit-code plumbing of the dump driver (pg_filedump.c, DumpFileContents and main) -/

/-- The mutable global state the driver threads through a dump: the
`exitCode` variable of pg_filedump.c, set to 1 by every validation failure. -/
structure DumpState where
  exitCode : Int
deriving DecidableEq

/-- A page header image as seen by FormatHeader's validity check. -/
structure BlockImage where
  lower : Nat
  upper : Nat
  special : Nat
  version : Nat

/-- One step of the dump loop: FormatBlock calls FormatHeader, which sets the
global exitCode to 1 when the header is invalid (pg_filedump.c:992-995). -/
def FormatBlockExit (blockSize : Nat) (st : DumpState) (b : BlockImage) : DumpState :=
  if formatHeaderInvalid blockSize b.lower b.upper b.special b.version then
    { exitCode := 1 }
  else st

/-- DumpFileContents (pg_filedump.c:2192-2304): iterates FormatBlock over the
blocks of the file and returns its local `result`, which stays 0 unless the
block buffer cannot be allocated or the initial seek fails; validation
failures only touch the global exitCode, never `result`. -/
def DumpFileContentsModel (blockSize : Nat) (blocks : List BlockImage)
    (st : DumpState) : Int × DumpState :=
  (0, blocks.foldl (FormatBlockExit blockSize) st)

/-- main (pg_filedump.c:2404-2420): it executes
`exitCode = DumpFileContents(...)` and then `exit(exitCode)`, so the process
exit status is the *return value* of DumpFileContents; the value the global
exitCode accumulated during the dump is overwritten by this assignment. -/
def mainExitCode (blockSize : Nat) (blocks : List BlockImage) : Int :=
  (DumpFileContentsModel blockSize blocks { exitCode := 0 }).1

/- ## CopyAppendEncode (decode.c:293-358) -/

/-- The encoding loop of CopyAppendEncode: walks the input bytes while
`len > 0`, appending the escape of each byte to the output buffer
(the C writes into tmp_buff at curr_offset; the accumulator models that
buffer).  A 0x00 input byte is data, not a terminator. -/
def CopyAppendEncodeLoop (acc : List Nat) : List Nat → List Nat
  | [] => acc
  | b :: rest =>
    if b = 0 then CopyAppendEncodeLoop (acc ++ [92, 48]) rest
    else if b = 13 then CopyAppendEncodeLoop (acc ++ [92, 114]) rest
    else if b = 10 then CopyAppendEncodeLoop (acc ++ [92, 110]) rest
    else if b = 9 then CopyAppendEncodeLoop (acc ++ [92, 114]) rest
    else if b = 92 then CopyAppendEncodeLoop (acc ++ [92, 92]) rest
    else CopyAppendEncodeLoop (acc ++ [b]) rest

/-- CopyAppendEncode (decode.c): escape a byte string of the given length. -/
def CopyAppendEncode (l : List Nat) : List Nat := CopyAppendEncodeLoop [] l

/-- Per-byte escape table as the specification states it: NUL becomes
backslash-0, CR becomes backslash-r, LF becomes backslash-n, TAB becomes
backslash-r (sic), backslash doubles, everything else passes through. -/
def escapeByteSpec (b : Nat) : List Nat :=
  if b = 0 then [92, 48]
  else if b = 13 then [92, 114]
  else if b = 10 then [92, 110]
  else if b = 9 then [92, 114]
  else if b = 92 then [92, 92]
  else [b]

/-- Specification-side rendering: every input byte is escaped in order. -/
def encodeSpec : List Nat → List Nat
  | [] => []
  | b :: rest => escapeByteSpec b ++ encodeSpec rest

/- ## The zero-padding skip loop of extract_data (decode.c:1080-1089) -/

/-- The loop `while (*buffer == 0x00) { if (buff_size == 0) return -1; ... }`
at the head of extract_data.  It dereferences the byte at the current index
*before* testing the remaining size.  The function returns
(result, last index read): result none models `return -1` (ShortBuffer),
result `some i` means the loop stopped on a nonzero byte at index i, i.e. the
skipped padding is i minus the start index. -/
def extract_data_skipZeros (mem : Nat → Nat) : Nat → Nat → Option Nat × Nat
  | idx, 0 => if readByte mem idx = 0 then (none, idx) else (some idx, idx)
  | idx, r + 1 =>
    if readByte mem idx = 0 then extract_data_skipZeros mem (idx + 1) r
    else (some idx, idx)

/- ## GetSpecialSectionType (pg_filedump.c:704-790) -/

/-- The special-section classification result (specialSectionTypes in
pg_filedump.h). -/
inductive SpecialSection where
  | sectNone
  | sequence
  | indexBtree
  | indexHash
  | indexGist
  | indexGin
  | indexSpgist
  | errorUnknown
  | errorBoundary
deriving DecidableEq

/-- GetSpecialSectionType (pg_filedump.c): classify the special section of a
page image by its size and, where needed, the 4-byte word at the special
offset and the last 2 bytes of the page.  pd_special is the little-endian
16-bit field at byte offset 16 of the page header. -/
def GetSpecialSectionType (bytesToFormat blockSize : Nat) (mem : Nat → Nat) :
    SpecialSection :=
  if sizeofPageHeaderData < bytesToFormat then
    let specialOffset := readLE16 mem 16
    if specialOffset = 0 ∨ blockSize < specialOffset ∨ bytesToFormat < specialOffset then
      SpecialSection.errorBoundary
    else
      let ptype := readLE16 mem (blockSize - 2)
      let specialSize := blockSize - specialOffset
      if specialSize = 0 then SpecialSection.sectNone
      else if specialSize = MAXALIGN 4 then
        if bytesToFormat = blockSize then
          let specialValue := readLE32 mem specialOffset
          if specialValue = SEQUENCE_MAGIC then SpecialSection.sequence
          else if specialSize = MAXALIGN sizeofSpGistPageOpaqueData ∧
              ptype = SPGIST_PAGE_ID then SpecialSection.indexSpgist
          else if specialSize = MAXALIGN sizeofGinPageOpaqueData then
            SpecialSection.indexGin
          else SpecialSection.errorUnknown
        else SpecialSection.errorUnknown
      else if specialSize = MAXALIGN sizeofSpGistPageOpaqueData ∧
          bytesToFormat = blockSize ∧ ptype = SPGIST_PAGE_ID then
        SpecialSection.indexSpgist
      else if specialSize = MAXALIGN sizeofGinPageOpaqueData then
        SpecialSection.indexGin
      else if 2 < specialSize ∧ bytesToFormat = blockSize then
        if ptype ≤ MAX_BT_CYCLE_ID ∧ specialSize = MAXALIGN sizeofBTPageOpaqueData then
          SpecialSection.indexBtree
        else if ptype = HASHO_PAGE_ID ∧ specialSize = MAXALIGN sizeofHashPageOpaqueData then
          SpecialSection.indexHash
        else if ptype = GIST_PAGE_ID ∧ specialSize = MAXALIGN sizeofGISTPageOpaqueData then
          SpecialSection.indexGist
        else SpecialSection.errorUnknown
      else SpecialSection.errorUnknown
  else SpecialSection.errorUnknown

/-- A full page image exhibiting the collision: pd_special = 8184 on an 8192
byte page (special size 8), special section starting with the 4 bytes
17 17 00 00 and ending with the SPGIST page id bytes 03 FF. -/
def spgistSequencePage : Nat → Nat := fun i =>
  if i = 16 then 0xF8
  else if i = 17 then 0x1F
  else if i = 8184 then 0x17
  else if i = 8185 then 0x17
  else if i = 8190 then 0x03
  else if i = 8191 then 0xFF
  else 0

/-- Same page with the first special-section byte changed so the 4-byte word
at the special offset no longer equals SEQUENCE_MAGIC. -/
def spgistOnlyPage : Nat → Nat := fun i =>
  if i = 8184 then 0 else spgistSequencePage i

/- ## Date decoding (decode.c: j2date, decode_date) -/

/-- POSTGRES_EPOCH_JDATE: Julian day number of 2000-01-01. -/
def POSTGRES_EPOCH_JDATE : Int := 2451545

/-- j2date (decode.c:634-657): convert a Julian day number to (year, month,
day).  The C locals julian, quad, extra are unsigned int; the arithmetic is
carried out mod 2^32 exactly where the C can wrap (the initial assignment
from the signed jd and the addition of 60 + quad*3 + extra/146097). -/
def j2date (jd : Int) : Int × Nat × Nat :=
  let m32 : Nat := 4294967296
  let julian0 : Nat := (jd % (m32 : Int)).toNat
  let julian1 : Nat := (julian0 + 32044) % m32
  let quad1 : Nat := julian1 / 146097
  let extra : Nat := (julian1 - quad1 * 146097) * 4 + 3
  let julian2 : Nat := (julian1 + 60 + quad1 * 3 + extra / 146097) % m32
  let quad2 : Nat := julian2 / 1461
  let julian3 : Nat := julian2 - quad2 * 1461
  let y0 : Nat := julian3 * 4 / 1461
  let julian4 : Nat :=
    (if y0 ≠ 0 then (julian3 + 305) % 365 else (julian3 + 306) % 366) + 123
  let y1 : Nat := y0 + quad2 * 4
  let year : Int := (y1 : Int) - 4800
  let quad3 : Nat := julian4 * 2141 / 65536
  let day : Nat := julian4 - 7834 * quad3 / 256
  let month : Nat := (quad3 + 10) % 12 + 1
  (year, month, day)

/-- Zero-padded decimal rendering of a natural number to a minimum width,
like printf %0*u. -/
def padNat (w n : Nat) : String :=
  let s := toString n
  if s.length < w then String.mk (List.replicate (w - s.length) '0') ++ s else s

/-- printf %0*d rendering of a signed integer (sign counts toward the width,
zero padding goes after the sign). -/
def padInt (w : Nat) (n : Int) : String :=
  if n < 0 then "-" ++ padNat (w - 1) (-n).toNat else padNat w n.toNat

/-- The CopyAppendFmt format "%04d-%02d-%02d%s" of decode_date: years at or
below zero print as 1 - year with a trailing " BC". -/
def formatDateYMD (year : Int) (month day : Nat) : String :=
  padInt 4 (if year ≤ 0 then -year + 1 else year) ++ "-" ++
    padNat 2 month ++ "-" ++ padNat 2 day ++
    (if year ≤ 0 then " BC" else "")

/-- decode_date (decode.c:806-847): align the read pointer to 4 bytes, check
the remaining size, read a signed 32-bit day count, handle the two infinity
sentinels, otherwise convert d + POSTGRES_EPOCH_JDATE through j2date and
render.  Returns the emitted text together with out_size, or the C error
code. -/
def decode_date (mem : Nat → Nat) (addr buffSize : Nat) : Except Int (String × Nat) :=
  let delta := INTALIGN addr - addr
  if buffSize < delta then Except.error (-1)
  else if buffSize - delta < 4 then Except.error (-2)
  else
    let d := toInt32 (readLE32 mem (addr + delta))
    if d = -2147483648 then Except.ok ("-infinity", 4 + delta)
    else if d = 2147483647 then Except.ok ("infinity", 4 + delta)
    else
      let ymd := j2date (d + POSTGRES_EPOCH_JDATE)
      Except.ok (formatDateYMD ymd.1 ymd.2.1 ymd.2.2, 4 + delta)

/-- The date rendering as the claim states it: INT32_MIN and INT32_MAX map to
the infinities, every other value renders as the Gregorian date produced by
the fixed Julian-day conversion applied to d + 2451545, with BC handling. -/
def dateRenderingSpec (d : Int) : String :=
  if d = -2147483648 then "-infinity"
  else if d = 2147483647 then "infinity"
  else
    let ymd := j2date (d + 2451545)
    formatDateYMD ymd.1 ymd.2.1 ymd.2.2

/- ## Attribute-type list parsing (decode.c: AddTypeCallback, ParseAttributeTypesString) -/

/-- The type names of callback_table (decode.c:138-235). -/
def knownTypeNames : List String :=
  ["smallserial", "smallint", "int", "oid", "xid", "serial", "bigint",
   "bigserial", "time", "timetz", "date", "timestamp", "timestamptz", "real",
   "float4", "float8", "float", "bool", "uuid", "macaddr", "name", "numeric",
   "char", "~", "charn", "varchar", "varcharn", "text", "json", "xml"]

/-- AddTypeCallback (decode.c:551-580), success as a Bool: an empty element
is ignored (returns 0), a known name registers its decoder (returns 0),
anything else prints an error and returns -1. -/
def AddTypeCallback (t : List Char) : Bool :=
  t.isEmpty || knownTypeNames.contains (String.mk t)

/-- ASCII tolower as applied by ParseAttributeTypesString. -/
def toLowerChar (c : Char) : Char :=
  if 'A' ≤ c ∧ c ≤ 'Z' then Char.ofNat (c.toNat + 32) else c

/-- The strstr-splitting loop of ParseAttributeTypesString: walk the string,
handing each comma-separated element to AddTypeCallback and aborting on the
first failure.  The accumulator holds the current element reversed. -/
def parseTypesLoop : List Char → List Char → Bool
  | [], acc => AddTypeCallback acc.reverse
  | c :: cs, acc =>
    if c = ',' then AddTypeCallback acc.reverse && parseTypesLoop cs []
    else parseTypesLoop cs (c :: acc)

/-- ATTRTYPES_STR_MAX_LEN (decode.c:27). -/
def ATTRTYPES_STR_MAX_LEN : Nat := 1023

/-- ParseAttributeTypesString (decode.c:591-628): reject strings longer than
ATTRTYPES_STR_MAX_LEN, lowercase a copy of the whole input, then split on
commas and register each element. -/
def ParseAttributeTypesString (s : List Char) : Int :=
  if ATTRTYPES_STR_MAX_LEN < s.length then -1
  else if parseTypesLoop (s.map toLowerChar) [] then 0 else -1

/-- Specification-side comma split: the list of (possibly empty)
comma-separated elements of a character list. -/
def commaSplit : List Char → List (List Char)
  | [] => [[]]
  | c :: cs =>
    if c = ',' then [] :: commaSplit cs
    else
      match commaSplit cs with
      | [] => [[c]]
      | t :: ts => (c :: t) :: ts

/- ## Tuple decoding loop (decode.c: FormatDecode, decode_ignore) -/

/-- The shape of a registered attribute decoder: it receives the tuple
memory, the current read address and the remaining size, and either fails
with a C error code or returns (processed_size, fields appended to the COPY
line). -/
def DecodeCallback : Type :=
  (Nat → Nat) → Nat → Nat → Except Int (Nat × List String)

/-- decode_ignore (decode.c:1054-1060): report the whole remaining size as
consumed, emit nothing, succeed. -/
def decode_ignore : DecodeCallback := fun _ _ buffSize => Except.ok (buffSize, [])

/-- att_isnull from the PostgreSQL headers: attribute ATT is null when bit
(ATT mod 8) of byte (ATT / 8) of the null bitmap is clear. -/
def attIsnull (att : Nat) (bits : Nat → Nat) : Bool :=
  decide (bits (att / 8) / 2 ^ (att % 8) % 2 = 0)

/-- The outcomes of FormatDecode: a flushed COPY line, the ran-out-of-bytes
error, a failing callback, or the trailing-bytes error of the final
`size != 0` check. -/
inductive FormatDecodeResult where
  | copyLine (fields : List String)
  | errNoMoreBytes (fields : List String)
  | errCallback (idx : Nat) (ret : Int) (fields : List String)
  | errTrailing (left : Nat) (fields : List String)
deriving DecidableEq

/-- The attribute loop of FormatDecode (decode.c:1260-1297): for each
registered callback, first the null-bitmap check (emitting a literal
backslash-N and consuming nothing), then the `size <= 0` check, then the
callback itself; after the loop the final `size != 0` check. -/
def FormatDecodeLoop (mem : Nat → Nat) (infomask : Nat) (bits : Nat → Nat) :
    List DecodeCallback → Nat → Nat → Nat → List String → FormatDecodeResult
  | [], _, _, size, fields =>
    if size ≠ 0 then FormatDecodeResult.errTrailing size fields
    else FormatDecodeResult.copyLine fields
  | cb :: rest, idx, addr, size, fields =>
    if infomask % 2 = 1 ∧ attIsnull idx bits = true then
      FormatDecodeLoop mem infomask bits rest (idx + 1) addr size (fields ++ ["\\N"])
    else if size = 0 then FormatDecodeResult.errNoMoreBytes fields
    else
      match cb mem addr size with
      | Except.error ret => FormatDecodeResult.errCallback idx ret fields
      | Except.ok (consumed, out) =>
        FormatDecodeLoop mem infomask bits rest (idx + 1) (addr + consumed)
          (usub32 size consumed) (fields ++ out)

/-- FormatDecode (decode.c:1250-1298): start the attribute walk at
tupleData + t_hoff with size tupleSize - t_hoff (unsigned arithmetic). -/
def FormatDecode (mem : Nat → Nat) (infomask : Nat) (bits : Nat → Nat)
    (hoff : Nat) (callbacks : List DecodeCallback) (tupleAddr tupleSize : Nat) :
    FormatDecodeResult :=
  FormatDecodeLoop mem infomask bits callbacks 0 (tupleAddr + hoff)
    (usub32 tupleSize hoff) []

/- ## TOAST chunk collection (pg_filedump.c FormatItemBlock isToast branch, decode.c ToastChunkDecode) -/

/-- A TOAST chunk tuple as ToastChunkDecode reads it from a NORMAL item:
the TOAST value oid, the chunk sequence number, and the chunk payload. -/
structure ToastChunkTuple where
  oid : Nat
  chunkId : Nat
  payload : List Nat
deriving DecidableEq

/-- memcpy into a fixed buffer: overwrite dest starting at offset off with
src (in-bounds use only: off + src.length ≤ dest.length). -/
def writeBytes (dest : List Nat) (off : Nat) (src : List Nat) : List Nat :=
  dest.take off ++ src ++ dest.drop (off + src.length)

/-- The isToast branch of the item walk (pg_filedump.c:1383-1397) iterated
over every NORMAL item of the TOAST relation by DumpFileContents: each item
is decoded by ToastChunkDecode, which copies the payload of a matching chunk
to `toastValue + *toastRead` (the running total of bytes read so far) and
reports its size; non-matching chunks report size 0.  After every item the
loop stops once toastRead reaches toastExternalSize. -/
def FormatItemBlockToast (toastOid toastExternalSize : Nat) :
    List ToastChunkTuple → List Nat → Nat → List Nat
  | [], dest, _ => dest
  | t :: rest, dest, toastRead =>
    let chunkSize := if t.oid = toastOid then t.payload.length else 0
    let dest' := if t.oid = toastOid then writeBytes dest toastRead t.payload else dest
    let toastRead' := toastRead + chunkSize
    if toastExternalSize ≤ toastRead' then dest'
    else FormatItemBlockToast toastOid toastExternalSize rest dest' toastRead'

/-- Concatenation, in on-disk order, of the payloads of the chunks whose oid
matches the target TOAST value. -/
def chunkConcat (toastOid : Nat) : List ToastChunkTuple → List Nat
  | [] => []
  | t :: rest =>
    (if t.oid = toastOid then t.payload else []) ++ chunkConcat toastOid rest

/- ## GIN varbyte decoding (pg_filedump.c: decode_varbyte, FormatGinBlock) -/

/-- decode_varbyte (pg_filedump.c:1054-1108): decode one varbyte-encoded
integer, 7 bits per byte with a high continuation bit; the 7th byte is taken
whole.  Returns the value and the advanced pointer. -/
def decode_varbyte (mem : Nat → Nat) (p : Nat) : Nat × Nat :=
  let c0 := readByte mem p
  let v0 := c0 % 128
  if c0 < 128 then (v0, p + 1)
  else
    let c1 := readByte mem (p + 1)
    let v1 := v0 ||| (c1 % 128) <<< 7
    if c1 < 128 then (v1, p + 2)
    else
      let c2 := readByte mem (p + 2)
      let v2 := v1 ||| (c2 % 128) <<< 14
      if c2 < 128 then (v2, p + 3)
      else
        let c3 := readByte mem (p + 3)
        let v3 := v2 ||| (c3 % 128) <<< 21
        if c3 < 128 then (v3, p + 4)
        else
          let c4 := readByte mem (p + 4)
          let v4 := v3 ||| (c4 % 128) <<< 28
          if c4 < 128 then (v4, p + 5)
          else
            let c5 := readByte mem (p + 5)
            let v5 := v4 ||| (c5 % 128) <<< 35
            if c5 < 128 then (v5, p + 6)
            else
              let c6 := readByte mem (p + 6)
              (v5 ||| c6 <<< 42, p + 7)

/-- itemptr_to_uint64 (pg_filedump.c:1034-1044): block number shifted left by
MaxHeapTuplesPerPageBits (11), or-ed with the offset number. -/
def itemptrToUint64 (blockHi blockLo posid : Nat) : Nat :=
  ((blockHi <<< 16) ||| blockLo) <<< 11 ||| posid

/-- The delta-enumeration loop over one posting-list segment
(pg_filedump.c:1154-1165): `while (ptr < endseg) val += decode_varbyte(&ptr)`.
The fuel argument makes the iteration count explicit; `none` means the fuel
ran out before the loop condition became false. -/
def ginSegmentLoop (mem : Nat → Nat) : Nat → Nat → Nat → Nat → Option (List Nat)
  | 0, ptr, endseg, _ => if ptr < endseg then none else some []
  | fuel + 1, ptr, endseg, val =>
    if ptr < endseg then
      let r := decode_varbyte mem ptr
      match ginSegmentLoop mem fuel r.2 endseg (val + r.1) with
      | none => none
      | some l => some ((val + r.1) :: l)
    else some []

/-- The segment loop of FormatGinBlock over a compressed GIN leaf
(pg_filedump.c:1137-1170): each GinPostingList starts with a 6-byte item
pointer and a 2-byte nbytes count, its varbyte data follows, and
GinNextPostingListSegment advances by 8 + SHORTALIGN(nbytes). -/
def ginPostingListsLoop (mem : Nat → Nat) : Nat → Nat → Nat → Option (List (List Nat))
  | 0, seg, endptr => if seg < endptr then none else some []
  | fuel + 1, seg, endptr =>
    if seg < endptr then
      let nbytes := readLE16 mem (seg + 6)
      let first := itemptrToUint64 (readLE16 mem seg) (readLE16 mem (seg + 2))
        (readLE16 mem (seg + 4))
      match ginSegmentLoop mem nbytes (seg + 8) (seg + 8 + nbytes) first with
      | none => none
      | some items =>
        match ginPostingListsLoop mem fuel (seg + 8 + SHORTALIGN nbytes) endptr with
        | none => none
        | some rest => some (items :: rest)
    else some []

/-!
## Theorems

Helper lemmas come first, then one theorem per claim (with witnesses and
counterexamples where the claim status needs them).
-/

/- ### Helper lemmas for CopyAppendEncode -/

lemma copyAppendEncodeLoop_eq (l : List Nat) :
    ∀ acc, CopyAppendEncodeLoop acc l = acc ++ encodeSpec l := by
  induction l with
  | nil => intro acc; simp [CopyAppendEncodeLoop, encodeSpec]
  | cons b rest ih =>
    intro acc
    by_cases h0 : b = 0
    · simp [CopyAppendEncodeLoop, encodeSpec, escapeByteSpec, h0, ih]
    · by_cases h13 : b = 13
      · simp [CopyAppendEncodeLoop, encodeSpec, escapeByteSpec, h0, h13, ih]
      · by_cases h10 : b = 10
        · simp [CopyAppendEncodeLoop, encodeSpec, escapeByteSpec, h0, h13, h10, ih]
        · by_cases h9 : b = 9
          · simp [CopyAppendEncodeLoop, encodeSpec, escapeByteSpec, h0, h13, h10, h9, ih]
          · by_cases h92 : b = 92
            · simp [CopyAppendEncodeLoop, encodeSpec, escapeByteSpec, h0, h13, h10, h9, h92, ih]
            · simp [CopyAppendEncodeLoop, encodeSpec, escapeByteSpec, h0, h13, h10, h9, h92, ih]

lemma encodeSpec_append (l₁ l₂ : List Nat) :
    encodeSpec (l₁ ++ l₂) = encodeSpec l₁ ++ encodeSpec l₂ := by
  induction l₁ with
  | nil => simp [encodeSpec]
  | cons b rest ih => simp [encodeSpec, ih]

/- ### Helper lemmas for the extract_data padding loop -/

lemma skipZeros_allZero : ∀ r idx,
    extract_data_skipZeros (fun _ => 0) idx r = (none, idx + r) := by
  intro r
  induction r with
  | zero => intro idx; simp [extract_data_skipZeros, readByte]
  | succ r ih =>
    intro idx
    simp [extract_data_skipZeros, readByte, ih]
    try omega

lemma skipZeros_belowBoundary (n : Nat) : ∀ r idx, idx + r = n →
    extract_data_skipZeros (fun i => if i < n then 0 else 1) idx r = (some n, n) := by
  intro r
  induction r with
  | zero =>
    intro idx h
    have hidx : idx = n := by omega
    subst hidx
    simp [extract_data_skipZeros, readByte]
  | succ r ih =>
    intro idx h
    have hlt : idx < n := by omega
    simp only [extract_data_skipZeros, readByte, if_pos hlt, Nat.zero_mod, if_pos rfl]
    exact ih (idx + 1) (by omega)

/- ### C5: field escaping -/

/-- C5.  Every byte the field-escaping function of the string, name and char
decoders receives is rendered in place: NUL as backslash-0, CR as
backslash-r, LF as backslash-n, TAB as backslash-r, backslash doubled, all
other bytes unchanged (this is exactly `encodeSpec`, whose per-byte table is
`escapeByteSpec`); the rendering is a homomorphism for concatenation, so a
literal NUL inside the string does not terminate the rendered field and all
input bytes are covered. -/
theorem C5_field_escaping :
    (∀ l : List Nat, CopyAppendEncode l = encodeSpec l) ∧
    (∀ l₁ l₂ : List Nat,
      CopyAppendEncode (l₁ ++ l₂) = CopyAppendEncode l₁ ++ CopyAppendEncode l₂) := by
  constructor
  · intro l
    simpa using copyAppendEncodeLoop_eq l []
  · intro l₁ l₂
    have h1 := copyAppendEncodeLoop_eq (l₁ ++ l₂) ([] : List Nat)
    have h2 := copyAppendEncodeLoop_eq l₁ ([] : List Nat)
    have h3 := copyAppendEncodeLoop_eq l₂ ([] : List Nat)
    simp only [CopyAppendEncode, h1, h2, h3, List.nil_append]
    exact encodeSpec_append l₁ l₂

/- ### C4: the padding-skip loop reads past the buffer -/

/-- C4.  On an all-zero buffer of length n the padding-skip loop of
extract_data dereferences the byte at index n, one past the authoritative
length cap (first conjunct: the last index read is n), and the loop's
outcome depends on that out-of-bounds byte: a memory that agrees with the
all-zero buffer on every index below n but holds a nonzero byte at n makes
the loop exit into varlena parsing instead of returning the ShortBuffer
error (second conjunct). -/
theorem C4_padding_loop_reads_past_end : ∀ n : Nat,
    (extract_data_skipZeros (fun _ => 0) 0 n).2 = n ∧
    extract_data_skipZeros (fun i => if i < n then 0 else 1) 0 n ≠
      extract_data_skipZeros (fun _ => 0) 0 n := by
  intro n
  have h1 := skipZeros_allZero n 0
  have h2 := skipZeros_belowBoundary n n 0 (by omega)
  constructor
  · simp [h1]
  · simp [h1, h2]

/- ### C3: header bounds of accepted pages -/

/-- C3 counterexample.  A page on an 8192-byte block with pd_lower = 20,
pd_upper = 8192, pd_special = 8192 and layout version 4 is accepted by
FormatHeader without an invalid-header report, yet it violates the claimed
bound sizeof(PageHeader) ≤ pd_lower, because the code only requires
pd_lower ≥ sizeof(PageHeaderData) - sizeof(ItemIdData) = 20. -/
theorem C3_counterexample :
    formatHeaderInvalid 8192 20 8192 8192 4 = false ∧
    ¬ (sizeofPageHeaderData ≤ 20) := by
  constructor
  · decide
  · decide

/-- C3 amended.  FormatHeader reports no invalid-header error exactly when
sizeof(PageHeaderData) - sizeof(ItemIdData) ≤ pd_lower ≤ pd_upper ≤
pd_special ≤ blockSize and the layout version is the supported one (the
lower bound on pd_lower is 20, four bytes less than the claimed
sizeof(PageHeader)). -/
theorem C3_header_bounds_amended :
    ∀ blockSize lower upper special version : Nat,
    formatHeaderInvalid blockSize lower upper special version = false ↔
      (sizeofPageHeaderData - sizeofItemIdData ≤ lower ∧ lower ≤ upper ∧
       upper ≤ special ∧ special ≤ blockSize ∧
       version = PG_PAGE_LAYOUT_VERSION) := by
  intro blockSize lower upper special version
  have hmax : PageGetMaxOffsetNumber lower =
      if lower ≤ 24 then 0 else (lower - 24) / 4 := by
    simp [PageGetMaxOffsetNumber, sizeofPageHeaderData, sizeofItemIdData]
  simp only [formatHeaderInvalid, hmax, sizeofPageHeaderData, sizeofItemIdData,
    PG_PAGE_LAYOUT_VERSION, Bool.or_eq_false_iff, decide_eq_false_iff_not,
    not_lt, ne_eq, not_not]
  by_cases h24 : lower ≤ 24
  · simp only [if_pos h24]
    omega
  · simp only [if_neg h24]
    omega

/- ### C1: the process exit code ignores validation failures -/

/-- C1.  A one-block file whose page header is invalid (here pd_lower = 0,
pd_upper = 0, pd_special = 0, version 4) makes the dump set the global
exitCode to 1 (first conjunct: the state DumpFileContents leaves behind),
but main overwrites exitCode with DumpFileContents' return value, so the
process exits with status 0 (second conjunct) even though a block-level
validation failed — contradicting the claimed nonzero exit code. -/
theorem C1_exit_code_clobbered :
    (DumpFileContentsModel 8192 [⟨0, 0, 0, 4⟩] ⟨0⟩).2.exitCode = 1 ∧
    mainExitCode 8192 [⟨0, 0, 0, 4⟩] = 0 := by
  constructor
  · decide
  · decide

/- ### Helper lemma for the TOAST collection loop -/

lemma toastLoop_concat (toastOid ext : Nat) :
    ∀ (items : List ToastChunkTuple) (dest : List Nat) (read : Nat),
      read + (chunkConcat toastOid items).length = ext →
      dest.length = ext →
      FormatItemBlockToast toastOid ext items dest read =
        dest.take read ++ chunkConcat toastOid items := by
  intro items
  induction items with
  | nil =>
    intro dest read hlen hdest
    simp only [chunkConcat, List.length_nil, Nat.add_zero] at hlen
    simp only [FormatItemBlockToast, chunkConcat, List.append_nil]
    rw [List.take_of_length_le (by omega)]
  | cons t rest ih =>
    intro dest read hlen hdest
    by_cases hm : t.oid = toastOid
    · have hcc : chunkConcat toastOid (t :: rest) =
          t.payload ++ chunkConcat toastOid rest := by
        simp [chunkConcat, hm]
      rw [hcc] at hlen ⊢
      simp only [List.length_append] at hlen
      simp only [FormatItemBlockToast, if_pos hm]
      by_cases hstop : ext ≤ read + t.payload.length
      · rw [if_pos hstop]
        have hrestnil : chunkConcat toastOid rest = [] :=
          List.eq_nil_of_length_eq_zero (by omega)
        rw [hrestnil, List.append_nil, writeBytes]
        have hdrop : dest.drop (read + t.payload.length) = [] :=
          List.drop_eq_nil_of_le (by omega)
        rw [hdrop, List.append_nil]
      · rw [if_neg hstop]
        have hdest' : (writeBytes dest read t.payload).length = ext := by
          simp only [writeBytes, List.length_append, List.length_take,
            List.length_drop]
          omega
        rw [ih (writeBytes dest read t.payload) (read + t.payload.length)
          (by omega) hdest']
        have hAB : (dest.take read ++ t.payload).length =
            read + t.payload.length := by
          simp only [List.length_append, List.length_take]
          omega
        rw [writeBytes, List.take_append_eq_append_take, hAB,
          List.take_of_length_le (le_of_eq hAB), Nat.sub_self, List.take_zero,
          List.append_nil, List.append_assoc]
    · have hcc : chunkConcat toastOid (t :: rest) = chunkConcat toastOid rest := by
        simp [chunkConcat, hm]
      rw [hcc] at hlen ⊢
      simp only [FormatItemBlockToast, if_neg hm, Nat.add_zero]
      by_cases hstop : ext ≤ read
      · rw [if_pos hstop]
        have hrestnil : chunkConcat toastOid rest = [] :=
          List.eq_nil_of_length_eq_zero (by omega)
        rw [hrestnil, List.append_nil, List.take_of_length_le (by omega)]
      · rw [if_neg hstop]
        exact ih dest read hlen hdest

/- ### C2: TOAST reassembly order -/

/-- C2 counterexample.  Two chunks of TOAST value 42 stored on disk out of
order: chunk 1 with payload [2] first, chunk 0 with payload [1] second.
Their payloads concatenate in chunk_id order to B = [1, 2], whose length 2
equals the external size, yet the reassembler produces [2, 1] ≠ B, because
each chunk is copied at the running byte total, not at
chunk_id * TOAST_MAX_CHUNK_SIZE. -/
theorem C2_counterexample :
    chunkConcat 42 [⟨42, 0, [1]⟩, ⟨42, 1, [2]⟩] = [1, 2] ∧
    FormatItemBlockToast 42 2 [⟨42, 1, [2]⟩, ⟨42, 0, [1]⟩] [0, 0] 0 = [2, 1] ∧
    ([2, 1] : List Nat) ≠ [1, 2] := by
  refine ⟨by decide, ?_, by decide⟩
  decide

/-- C2 amended.  The reassembler copies each matching chunk at the running
total of bytes read so far, so its output is the concatenation of the
matching payloads in on-disk order: whenever that concatenation has exactly
the external size and the destination buffer has that size, the output
equals it (and hence equals B exactly when the chunks appear on disk in
chunk_id order). -/
theorem C2_reassembly_disk_order (toastOid ext : Nat)
    (items : List ToastChunkTuple) (dest : List Nat)
    (hlen : (chunkConcat toastOid items).length = ext)
    (hdest : dest.length = ext) :
    FormatItemBlockToast toastOid ext items dest 0 = chunkConcat toastOid items := by
  have h := toastLoop_concat toastOid ext items dest 0 (by omega) hdest
  simpa using h

/-- Witness for C2: chunks stored in chunk_id order reassemble to their
concatenation. -/
theorem C2_reassembly_witness :
    (chunkConcat 42 [⟨42, 0, [1]⟩, ⟨42, 1, [2]⟩]).length = 2 ∧
    FormatItemBlockToast 42 2 [⟨42, 0, [1]⟩, ⟨42, 1, [2]⟩] [0, 0] 0 =
      chunkConcat 42 [⟨42, 0, [1]⟩, ⟨42, 1, [2]⟩] :=
  ⟨by decide, C2_reassembly_disk_order 42 2 _ _ (by decide) (by decide)⟩

/- ### C6: special-section classification of SP-GiST pages -/

/-- C6 counterexample.  A fully-read 8192-byte page whose special section has
size MAXALIGN(sizeof(SpGistPageOpaqueData)) and whose last 2 bytes equal
SPGIST_PAGE_ID is nevertheless classified as SEQUENCE, not INDEX_SPGIST,
when the 4-byte word at the special offset happens to equal SEQUENCE_MAGIC,
because that comparison comes first in GetSpecialSectionType. -/
theorem C6_counterexample :
    8192 - readLE16 spgistSequencePage 16 = MAXALIGN sizeofSpGistPageOpaqueData ∧
    readLE16 spgistSequencePage (8192 - 2) = SPGIST_PAGE_ID ∧
    GetSpecialSectionType 8192 8192 spgistSequencePage = SpecialSection.sequence ∧
    SpecialSection.sequence ≠ SpecialSection.indexSpgist := by
  refine ⟨by decide, by decide, ?_, by decide⟩
  decide

/-- C6 amended.  For every fully-read page whose special-section size equals
MAXALIGN(sizeof(SpGistPageOpaqueData)), whose last 2 bytes equal
SPGIST_PAGE_ID, and whose 4-byte word at the special offset differs from
SEQUENCE_MAGIC, the classifier returns INDEX_SPGIST (and in particular not
INDEX_GIN, although the GIN opaque size also matches). -/
theorem C6_spgist_amended (bytesToFormat blockSize : Nat) (mem : Nat → Nat)
    (hfull : bytesToFormat = blockSize)
    (hoff0 : readLE16 mem 16 ≠ 0)
    (hoffsz : readLE16 mem 16 + MAXALIGN sizeofSpGistPageOpaqueData = blockSize)
    (hbig : sizeofPageHeaderData < bytesToFormat)
    (hptype : readLE16 mem (blockSize - 2) = SPGIST_PAGE_ID)
    (hseq : readLE32 mem (readLE16 mem 16) ≠ SEQUENCE_MAGIC) :
    GetSpecialSectionType bytesToFormat blockSize mem = SpecialSection.indexSpgist := by
  subst hfull
  have hma : MAXALIGN sizeofSpGistPageOpaqueData = 8 := by decide
  rw [hma] at hoffsz
  have hss : bytesToFormat - readLE16 mem 16 = 8 := by omega
  simp only [GetSpecialSectionType]
  rw [if_pos hbig]
  rw [if_neg (by push_neg; exact ⟨hoff0, by omega, by omega⟩)]
  rw [if_neg (by omega)]
  rw [if_pos (by rw [hss]; decide)]
  rw [if_pos trivial]
  rw [if_neg hseq]
  rw [if_pos ⟨by rw [hss]; decide, hptype⟩]

/-- Witness for C6: the same page with the special word not equal to
SEQUENCE_MAGIC classifies as INDEX_SPGIST. -/
theorem C6_spgist_witness :
    GetSpecialSectionType 8192 8192 spgistOnlyPage = SpecialSection.indexSpgist :=
  C6_spgist_amended 8192 8192 spgistOnlyPage rfl (by decide) (by decide)
    (by decide) (by decide) (by decide)

/- ### C7: date decoding -/

/-- C7.  For every buffer position and size large enough for the aligned
4-byte body, decode_date succeeds, consumes the alignment padding plus 4
bytes, and renders the decoded signed day count d exactly as the claim
states: INT32_MIN as "-infinity", INT32_MAX as "infinity", and any other d
as the Gregorian date obtained by the fixed Julian-day conversion applied to
d + 2451545, printed as zero-padded YYYY-MM-DD with years at or below zero
shown as 1 - y followed by " BC" (dateRenderingSpec). -/
theorem C7_date_sentinels_and_jdn (mem : Nat → Nat) (addr buffSize : Nat)
    (hsize : INTALIGN addr - addr + 4 ≤ buffSize) :
    decode_date mem addr buffSize =
      Except.ok
        (dateRenderingSpec (toInt32 (readLE32 mem (addr + (INTALIGN addr - addr)))),
         4 + (INTALIGN addr - addr)) := by
  simp only [decode_date, dateRenderingSpec, POSTGRES_EPOCH_JDATE]
  rw [if_neg (by omega), if_neg (by omega)]
  by_cases h1 : toInt32 (readLE32 mem (addr + (INTALIGN addr - addr))) = -2147483648
  · rw [if_pos h1, if_pos h1]
  · rw [if_neg h1, if_neg h1]
    by_cases h2 : toInt32 (readLE32 mem (addr + (INTALIGN addr - addr))) = 2147483647
    · rw [if_pos h2, if_pos h2]
    · rw [if_neg h2, if_neg h2]

/-- Witness for C7: decoding the day count 0 (2000-01-01) from a zeroed
4-byte buffer at an aligned address. -/
theorem C7_date_witness :
    INTALIGN 0 - 0 + 4 ≤ 4 ∧
    decode_date (fun _ => 0) 0 4 =
      Except.ok
        (dateRenderingSpec (toInt32 (readLE32 (fun _ => 0) (0 + (INTALIGN 0 - 0)))),
         4 + (INTALIGN 0 - 0)) :=
  ⟨by decide, C7_date_sentinels_and_jdn (fun _ => 0) 0 4 (by decide)⟩

/- ### Helper lemma for the FormatDecode loop -/

lemma formatDecodeLoop_ne_trailing :
    ∀ (cbs : List DecodeCallback) (mem : Nat → Nat) (infomask : Nat)
      (bits : Nat → Nat) (idx addr size : Nat) (fields : List String),
      ¬ (infomask % 2 = 1 ∧ attIsnull (idx + cbs.length) bits = true) →
      ∀ left flds,
        FormatDecodeLoop mem infomask bits (cbs ++ [decode_ignore]) idx addr size
            fields ≠ FormatDecodeResult.errTrailing left flds := by
  intro cbs
  induction cbs with
  | nil =>
    intro mem infomask bits idx addr size fields hnull left flds
    simp only [List.length_nil, Nat.add_zero] at hnull
    simp only [List.nil_append, FormatDecodeLoop]
    rw [if_neg hnull]
    by_cases hsz : size = 0
    · rw [if_pos hsz]
      simp
    · rw [if_neg hsz]
      simp [decode_ignore, FormatDecodeLoop, usub32]
  | cons cb cbs ih =>
    intro mem infomask bits idx addr size fields hnull left flds
    have hnull' : ¬ (infomask % 2 = 1 ∧
        attIsnull (idx + 1 + cbs.length) bits = true) := by
      have : idx + 1 + cbs.length = idx + (cb :: cbs).length := by
        simp [List.length_cons]
        omega
      rw [this]
      exact hnull
    simp only [List.cons_append, FormatDecodeLoop]
    by_cases hn : infomask % 2 = 1 ∧ attIsnull idx bits = true
    · rw [if_pos hn]
      exact ih mem infomask bits (idx + 1) addr size _ hnull' left flds
    · rw [if_neg hn]
      by_cases hsz : size = 0
      · rw [if_pos hsz]
        simp
      · rw [if_neg hsz]
        rcases hcb : cb mem addr size with ret | pr
        · simp [hcb]
        · obtain ⟨consumed, out⟩ := pr
          simp only [hcb]
          exact ih mem infomask bits (idx + 1) (addr + consumed)
            (usub32 size consumed) _ hnull' left flds

/- ### C8: the ignore decoder and the trailing-bytes check -/

/-- C8 counterexample.  A tuple with HEAP_HASNULL set and the null-bitmap bit
of its single attribute clear, decoded with the one-element decoder list
[decode_ignore] over 5 remaining bytes: the loop skips the ~ attribute as
NULL (emitting a literal backslash-N) without consuming anything, so the
final remaining-equals-zero check of the tuple decoder fails with 5 bytes
left, even though the list ends with ~ and no earlier decoder failed. -/
theorem C8_counterexample :
    FormatDecode (fun _ => 0) 1 (fun _ => 0) 24 [decode_ignore] 0 29 =
      FormatDecodeResult.errTrailing 5 ["\\N"] := by
  decide

/-- C8 amended.  The ~ decoder always succeeds, emits nothing and reports
exactly the remaining size as consumed (first conjunct); and in any tuple
decode whose decoder list ends with ~, the final remaining-equals-zero check
can never fail *provided the ~ attribute is not skipped as NULL via the null
bitmap* (second conjunct: the result is never the trailing-bytes error, no
matter what the earlier decoders do). -/
theorem C8_ignore_consumes_rest :
    (∀ (mem : Nat → Nat) (addr size : Nat),
      decode_ignore mem addr size = Except.ok (size, ([] : List String))) ∧
    (∀ (mem : Nat → Nat) (infomask : Nat) (bits : Nat → Nat) (hoff : Nat)
      (cbs : List DecodeCallback) (tupleAddr tupleSize : Nat)
      (left : Nat) (flds : List String),
      ¬ (infomask % 2 = 1 ∧ attIsnull cbs.length bits = true) →
      FormatDecode mem infomask bits hoff (cbs ++ [decode_ignore])
          tupleAddr tupleSize ≠ FormatDecodeResult.errTrailing left flds) := by
  constructor
  · intro mem addr size
    rfl
  · intro mem infomask bits hoff cbs tupleAddr tupleSize left flds hnull
    exact formatDecodeLoop_ne_trailing cbs mem infomask bits 0 (tupleAddr + hoff)
      (usub32 tupleSize hoff) [] (by simpa using hnull) left flds

/-- Witness for C8: a tuple without nulls and the decoder list [~] over 5
remaining bytes never reports trailing bytes. -/
theorem C8_ignore_witness :
    FormatDecode (fun _ => 0) 0 (fun _ => 0) 24 ([] ++ [decode_ignore]) 0 29 ≠
      FormatDecodeResult.errTrailing 5 [] :=
  C8_ignore_consumes_rest.2 (fun _ => 0) 0 (fun _ => 0) 24 [] 0 29 5 []
    (by decide)

/- ### Helper lemmas for the type-list parser -/

lemma commaSplit_noComma : ∀ xs : List Char, ',' ∉ xs → commaSplit xs = [xs] := by
  intro xs
  induction xs with
  | nil => intro _; rfl
  | cons c cs ih =>
    intro h
    have hc : c ≠ ',' := fun hcc => h (hcc ▸ List.mem_cons_self c cs)
    have hcs : ',' ∉ cs := fun hm => h (List.mem_cons_of_mem c hm)
    simp only [commaSplit, if_neg (fun hcc => hc hcc), ih hcs]

lemma commaSplit_appendComma : ∀ (xs ys : List Char), ',' ∉ xs →
    commaSplit (xs ++ ',' :: ys) = xs :: commaSplit ys := by
  intro xs
  induction xs with
  | nil =>
    intro ys _
    simp [commaSplit]
  | cons c cs ih =>
    intro ys h
    have hc : c ≠ ',' := fun hcc => h (hcc ▸ List.mem_cons_self c cs)
    have hcs : ',' ∉ cs := fun hm => h (List.mem_cons_of_mem c hm)
    simp only [List.cons_append, commaSplit, if_neg (fun hcc => hc hcc),
      List.append_eq]
    rw [ih ys hcs]

lemma parseTypesLoop_eq : ∀ (l acc : List Char), ',' ∉ acc →
    parseTypesLoop l acc = (commaSplit (acc.reverse ++ l)).all AddTypeCallback := by
  intro l
  induction l with
  | nil =>
    intro acc hacc
    have hrev : ',' ∉ acc.reverse := by simpa using hacc
    simp [parseTypesLoop, commaSplit_noComma acc.reverse hrev]
  | cons c cs ih =>
    intro acc hacc
    have hrev : ',' ∉ acc.reverse := by simpa using hacc
    by_cases hc : c = ','
    · subst hc
      simp only [parseTypesLoop, if_pos rfl]
      rw [commaSplit_appendComma acc.reverse cs hrev]
      simp only [List.all_cons]
      rw [ih [] (by simp)]
      simp
    · simp only [parseTypesLoop, if_neg hc]
      rw [ih (c :: acc)
        (by simp only [List.mem_cons, not_or]; exact ⟨fun h => hc h.symm, hacc⟩)]
      have : (c :: acc).reverse ++ cs = acc.reverse ++ c :: cs := by
        simp
      rw [this]

/- ### C9: attribute-type list parsing -/

/-- C9.  ParseAttributeTypesString lowercases its whole input before
matching (the characterization below is in terms of the lowercased input, so
type names match case-insensitively), empty comma-separated elements are
silently skipped, and the parser returns 0 exactly when the input has at
most ATTRTYPES_STR_MAX_LEN (1023) characters and every non-empty element of
the comma split is one of the recognized type names. -/
theorem C9_type_list_parsing (s : List Char) :
    ParseAttributeTypesString s = 0 ↔
      (s.length ≤ ATTRTYPES_STR_MAX_LEN ∧
       ∀ t ∈ commaSplit (s.map toLowerChar),
         t = [] ∨ String.mk t ∈ knownTypeNames) := by
  unfold ParseAttributeTypesString
  by_cases hlen : ATTRTYPES_STR_MAX_LEN < s.length
  · rw [if_pos hlen]
    constructor
    · intro h
      exact absurd h (by decide)
    · rintro ⟨h1, _⟩
      omega
  · rw [if_neg hlen]
    rw [parseTypesLoop_eq (s.map toLowerChar) [] (by simp)]
    simp only [List.reverse_nil, List.nil_append]
    by_cases hall : (commaSplit (s.map toLowerChar)).all AddTypeCallback = true
    · rw [if_pos hall]
      simp only [List.all_eq_true, AddTypeCallback, Bool.or_eq_true,
        List.isEmpty_iff, List.contains, List.elem_iff] at hall
      exact ⟨fun _ => ⟨by omega, hall⟩, fun _ => rfl⟩
    · rw [if_neg hall]
      simp only [List.all_eq_true, AddTypeCallback, Bool.or_eq_true,
        List.isEmpty_iff, List.contains, List.elem_iff] at hall
      constructor
      · intro h
        exact absurd h (by decide)
      · rintro ⟨_, h2⟩
        exact absurd h2 hall

/-- Witness for C9: a mixed-case list with an empty element parses
successfully. -/
theorem C9_type_list_witness : ParseAttributeTypesString "INT,,Text,~".toList = 0 :=
  (C9_type_list_parsing "INT,,Text,~".toList).mpr ⟨by decide, by decide⟩

/- ### Helper lemmas for the GIN posting-list loops -/

lemma decode_varbyte_advance (mem : Nat → Nat) (p : Nat) :
    p + 1 ≤ (decode_varbyte mem p).2 ∧ (decode_varbyte mem p).2 ≤ p + 7 := by
  simp only [decode_varbyte]
  repeat' split
  all_goals simp

lemma ginSegmentLoop_total (mem : Nat → Nat) :
    ∀ (fuel ptr endseg val : Nat), endseg - ptr ≤ fuel →
      (ginSegmentLoop mem fuel ptr endseg val).isSome = true := by
  intro fuel
  induction fuel with
  | zero =>
    intro ptr endseg val h
    simp only [ginSegmentLoop]
    rw [if_neg (by omega)]
    simp
  | succ fuel ih =>
    intro ptr endseg val h
    simp only [ginSegmentLoop]
    by_cases hlt : ptr < endseg
    · rw [if_pos hlt]
      have hadv := decode_varbyte_advance mem ptr
      have hih := ih (decode_varbyte mem ptr).2 endseg
        (val + (decode_varbyte mem ptr).1) (by omega)
      rcases hsome : ginSegmentLoop mem fuel (decode_varbyte mem ptr).2 endseg
          (val + (decode_varbyte mem ptr).1) with _ | l
      · rw [hsome] at hih
        simp at hih
      · simp
    · rw [if_neg hlt]
      simp

lemma ginPostingListsLoop_total (mem : Nat → Nat) :
    ∀ (fuel seg endptr : Nat), endptr - seg ≤ fuel →
      (ginPostingListsLoop mem fuel seg endptr).isSome = true := by
  intro fuel
  induction fuel with
  | zero =>
    intro seg endptr h
    simp only [ginPostingListsLoop]
    rw [if_neg (by omega)]
    simp
  | succ fuel ih =>
    intro seg endptr h
    simp only [ginPostingListsLoop]
    by_cases hlt : seg < endptr
    · rw [if_pos hlt]
      have hinner := ginSegmentLoop_total mem (readLE16 mem (seg + 6)) (seg + 8)
        (seg + 8 + readLE16 mem (seg + 6))
        (itemptrToUint64 (readLE16 mem seg) (readLE16 mem (seg + 2))
          (readLE16 mem (seg + 4))) (by omega)
      rcases hsome : ginSegmentLoop mem (readLE16 mem (seg + 6)) (seg + 8)
          (seg + 8 + readLE16 mem (seg + 6))
          (itemptrToUint64 (readLE16 mem seg) (readLE16 mem (seg + 2))
            (readLE16 mem (seg + 4))) with _ | items
      · rw [hsome] at hinner
        simp at hinner
      · have hih := ih (seg + 8 + SHORTALIGN (readLE16 mem (seg + 6))) endptr
          (by omega)
        rcases hrest : ginPostingListsLoop mem fuel
            (seg + 8 + SHORTALIGN (readLE16 mem (seg + 6))) endptr with _ | rest
        · rw [hrest] at hih
          simp at hih
        · simp
    · rw [if_neg hlt]
      simp

/- ### C10: varbyte decoding strictly advances, so the GIN loops terminate -/

/-- C10.  Every call of the varbyte decoder consumes at least 1 and at most 7
bytes and strictly advances its pointer (first conjunct), so the enumeration
loop over the deltas of a posting-list segment completes within
endseg - ptr iterations for every byte content (second conjunct), and the
loop over the posting-list segments of a compressed GIN leaf completes
within endptr - seg iterations (third conjunct). -/
theorem C10_varbyte_termination :
    (∀ (mem : Nat → Nat) (p : Nat),
      p + 1 ≤ (decode_varbyte mem p).2 ∧ (decode_varbyte mem p).2 ≤ p + 7) ∧
    (∀ (mem : Nat → Nat) (ptr endseg val : Nat),
      (ginSegmentLoop mem (endseg - ptr) ptr endseg val).isSome = true) ∧
    (∀ (mem : Nat → Nat) (seg endptr : Nat),
      (ginPostingListsLoop mem (endptr - seg) seg endptr).isSome = true) :=
  ⟨fun mem p => decode_varbyte_advance mem p,
   fun mem ptr endseg val => ginSegmentLoop_total mem (endseg - ptr) ptr endseg val le_rfl,
   fun mem seg endptr => ginPostingListsLoop_total mem (endptr - seg) seg endptr le_rfl⟩
